import Mathlib

set_option maxRecDepth 8000

namespace E2E

/-- Test status: the source's TestResult.status is the string union
passed | failed (src/src/types.ts). -/
inductive Status
  | passed
  | failed
deriving DecidableEq, Repr

/-- TestResult (src/src/types.ts): spec name, status, duration in ms,
optional error message, optional list of completed step descriptions. -/
structure TestResult where
  spec : String
  status : Status
  duration : Nat
  error : Option String := none
  stepsCompleted : Option (List String) := none
deriving DecidableEq, Repr

/-- OrchestratorResults (src/src/types.ts): the aggregate returned by the
scheduling run. -/
structure OrchestratorResults where
  total : Nat
  passed : Nat
  failed : Nat
  results : List TestResult
  executionTime : Nat
deriving DecidableEq, Repr

/-- The characters of the extension string .spec.ts that the orchestrator
strips via path.basename(spec, .spec.ts). -/
def specExt : List Char := ".spec.ts".toList

/-- The part of a path after its last slash, as in Node's path.basename for
the forward-slash paths produced by discoverSpecs. -/
def afterLastSlash (cs : List Char) : List Char :=
  cs.foldl (fun acc c => if c == '/' then [] else acc ++ [c]) []

/-- Strip the trailing .spec.ts extension, as Node's path.basename(name, ext)
does: only when the name ends with the extension and is not the extension
itself. -/
def stripSpecExt (cs : List Char) : List Char :=
  if specExt.isSuffixOf cs && !(cs == specExt) then cs.take (cs.length - 8) else cs

/-- The spec name the orchestrator derives from a spec path:
path.basename(spec, .spec.ts)  (src/unnamed/part_002, line 112, and
src/unnamed/part_000, line 257). -/
def basenameSpec (s : String) : String :=
  String.mk (stripSpecExt (afterLastSlash s.toList))

/-- One progress snapshot: the values the ProgressTracker.update method
computes and prints (src/unnamed/part_002, lines 50-70). -/
structure Snapshot where
  completed : Nat
  total : Nat
  passed : Nat
  failed : Nat
  running : Nat
  queued : Nat
deriving DecidableEq, Repr

/-- The mutable state of the ProgressTracker (src/unnamed/part_002, lines
17-88).  The running Map is modelled by its key list in insertion order;
the RunningTest values (start timestamps) are external wall-clock data that
no claim observes. -/
structure ProgressState where
  running : List String
  completed : List TestResult
  queue : List String
  total : Nat
deriving DecidableEq, Repr

/-- ProgressTracker.addRunning: Map.set keyed by spec name.  Setting an
existing key replaces its value and keeps the key's position, so the key
list is unchanged when the name is already present. -/
def ProgressState.addRunning (p : ProgressState) (name : String) : ProgressState :=
  if name ∈ p.running then p else { p with running := p.running ++ [name] }

/-- ProgressTracker.removeRunning: Map.delete keyed by spec name. -/
def ProgressState.removeRunning (p : ProgressState) (name : String) : ProgressState :=
  { p with running := p.running.erase name }

/-- ProgressTracker.addCompleted: push the result and delete its spec name
from the running map. -/
def ProgressState.addCompleted (p : ProgressState) (r : TestResult) : ProgressState :=
  let p1 := { p with completed := p.completed ++ [r] }
  p1.removeRunning r.spec

/-- ProgressTracker.setQueue. -/
def ProgressState.setQueue (p : ProgressState) (q : List String) : ProgressState :=
  { p with queue := q }

/-- The snapshot ProgressTracker.update computes from the tracker state
(completed/total, passed, failed, running, queued). -/
def ProgressState.snapshot (p : ProgressState) : Snapshot :=
  { completed := p.completed.length
  , total := p.total
  , passed := (p.completed.filter (fun r => r.status == Status.passed)).length
  , failed := (p.completed.filter (fun r => r.status == Status.failed)).length
  , running := p.running.length
  , queued := p.queue.length }

/-- The behaviour of one runWorker call as the scheduler observes it: the
promise either resolves with a TestResult or rejects with an error value
that has an optional message property and a string form (String(error)). -/
inductive WorkerOutcome
  | resolve (r : TestResult)
  | reject (message : Option String) (stringForm : String)

/-- The expression error.message || String(error) from the catch handler
(src/unnamed/part_002, line 137): JavaScript || takes the string form when
the message property is absent or the empty string (falsy). -/
def rejectionMessage : Option String → String → String
  | some m, sf => if m = "" then sf else m
  | none, sf => sf

/-- The failed TestResult the scheduler synthesizes in its catch handler
when a worker promise rejects (src/unnamed/part_002, lines 133-138). -/
def errorResult (specName : String) (message : Option String) (stringForm : String) : TestResult :=
  { spec := specName
  , status := Status.failed
  , duration := 0
  , error := some (rejectionMessage message stringForm)
  , stepsCompleted := none }

/-- The value the chained worker promise settles with: the resolved
TestResult verbatim, or the synthesized failed result from the catch
handler (src/unnamed/part_002, lines 120-143). -/
def handlerResult (spec : String) : WorkerOutcome → TestResult
  | .resolve r => r
  | .reject m sf => errorResult (basenameSpec spec) m sf

/-- The state of one runTestsWithParallelization call: queue, the key list
of the activeWorkers Map (insertion order), allResults, and the tracker.
Three observation traces record what the run emits or does over time:
snapshots (one entry per ProgressTracker.update call), invocations (one
entry per runWorker call) and activeSizes (activeWorkers.size after every
Map.set and Map.delete). -/
structure SchedState where
  queue : List String
  active : List String
  allResults : List TestResult
  progress : ProgressState
  snapshots : List Snapshot
  invocations : List String
  activeSizes : List Nat
deriving DecidableEq, Repr

/-- activeWorkers.set keyed by the spec path: replacing an existing key
keeps the key list unchanged. -/
def activeSet (active : List String) (spec : String) : List String :=
  if spec ∈ active then active else active ++ [spec]

/-- One pass of the admission loop body (src/unnamed/part_002, lines
111-145): shift the queue head, track it as running, update the progress
line, invoke runWorker, and record the worker promise in activeWorkers. -/
def admitOne (s : SchedState) (spec : String) (rest : List String) : SchedState :=
  let name := basenameSpec spec
  let p := (s.progress.addRunning name).setQueue rest
  let newActive := activeSet s.active spec
  { queue := rest
  , active := newActive
  , allResults := s.allResults
  , progress := p
  , snapshots := s.snapshots ++ [p.snapshot]
  , invocations := s.invocations ++ [spec]
  , activeSizes := s.activeSizes ++ [newActive.length] }

/-- The inner admission while loop (src/unnamed/part_002, line 110):
while activeWorkers.size is below config.maxWorkers and the queue is
nonempty, admit the queue head.  The loop pops one queue element per
iteration, so the iteration bound s.queue.length used by admitLoop below
is never the reason it stops. -/
def admitGo (mw : Int) : Nat → SchedState → SchedState
  | 0, s => s
  | n + 1, s =>
    match s.queue with
    | [] => s
    | spec :: rest =>
      if (s.active.length : Int) < mw then admitGo mw n (admitOne s spec rest) else s

/-- The admission while loop, run to completion from state s. -/
def admitLoop (mw : Int) (s : SchedState) : SchedState :=
  admitGo mw s.queue.length s

/-- The settlement of one in-flight worker during an await: its chained
then/catch handler deletes its key from activeWorkers, normalizes the
settlement to a TestResult, records it in the tracker, and re-renders the
progress line (src/unnamed/part_002, lines 120-143).  Returns the value
the chained promise settles with. -/
def settleOne (oc : String → WorkerOutcome) (s : SchedState) (spec : String) :
    SchedState × TestResult :=
  let r := handlerResult spec (oc spec)
  let p := (s.progress.addCompleted r).setQueue s.queue
  let newActive := s.active.erase spec
  ({ queue := s.queue
   , active := newActive
   , allResults := s.allResults
   , progress := p
   , snapshots := s.snapshots ++ [p.snapshot]
   , invocations := s.invocations
   , activeSizes := s.activeSizes ++ [newActive.length] }, r)

/-- All workers that settle during one await of Promise.race, in settlement
order; names not currently in activeWorkers cannot settle and are skipped.
Returns the final state and the settled values in order, whose head is the
value Promise.race resolves with. -/
def settleList (oc : String → WorkerOutcome) : SchedState → List String → SchedState × List TestResult
  | s, [] => (s, [])
  | s, spec :: rest =>
    if spec ∈ s.active then
      let sr := settleOne oc s spec
      let srs := settleList oc sr.1 rest
      (srs.1, sr.2 :: srs.2)
    else settleList oc s rest

/-- The outer processing loop of runTestsWithParallelization
(src/unnamed/part_002, lines 108-153), driven by an adversarial schedule:
sched k lists the workers that settle during the k-th await, in settlement
order.  Only the first settled value of each await - the one Promise.race
resolves with - is appended to allResults.  Fuel bounds the number of loop
iterations; none models a run that has not returned (the loop body without
an await when activeWorkers is empty, or an await no worker ever ends). -/
def schedLoop (oc : String → WorkerOutcome) (sched : Nat → List String) (mw : Int) :
    Nat → Nat → SchedState → Option SchedState
  | 0, _, _ => none
  | fuel + 1, k, s =>
    if s.queue.isEmpty && s.active.isEmpty then some s
    else if (admitLoop mw s).active.isEmpty then
      schedLoop oc sched mw fuel k (admitLoop mw s)
    else
      match settleList oc (admitLoop mw s) (sched k) with
      | (_, []) => none
      | (s2, w :: _) =>
        schedLoop oc sched mw fuel (k + 1) { s2 with allResults := s2.allResults ++ [w] }

/-- The initial state of runTestsWithParallelization (src/unnamed/part_002,
lines 99-104): queue is a copy of specs, activeWorkers and allResults are
empty, and the ProgressTracker is constructed with allSpecs.length and a
copy of the queue. -/
def initState (specs allSpecs : List String) : SchedState :=
  { queue := specs
  , active := []
  , allResults := []
  , progress := { running := [], completed := [], queue := specs, total := allSpecs.length }
  , snapshots := []
  , invocations := []
  , activeSizes := [] }

/-- Run the scheduling loop from the initial state, returning the final
state when the run returns within the given fuel. -/
def runScheduler (fuel : Nat) (mw : Int) (specs allSpecs : List String)
    (oc : String → WorkerOutcome) (sched : Nat → List String) : Option SchedState :=
  schedLoop oc sched mw fuel 0 (initState specs allSpecs)

/-- The aggregate built from allResults on return (src/unnamed/part_002,
lines 158-168); executionTime is literally 0 there (set by the caller
afterwards). -/
def finalize (s : SchedState) : OrchestratorResults :=
  { total := s.allResults.length
  , passed := (s.allResults.filter (fun r => r.status == Status.passed)).length
  , failed := (s.allResults.filter (fun r => r.status == Status.failed)).length
  , results := s.allResults
  , executionTime := 0 }

/-- runTestsWithParallelization (src/unnamed/part_002, lines 93-169): the
scheduling run, with config.maxWorkers passed as mw, under a given executor
behaviour and settlement schedule. -/
def runTestsWithParallelization (fuel : Nat) (mw : Int) (specs allSpecs : List String)
    (oc : String → WorkerOutcome) (sched : Nat → List String) : Option OrchestratorResults :=
  (runScheduler fuel mw specs allSpecs oc sched).map finalize

/-- The exit status the CLI chooses after a completed orchestrator run
(src/unnamed/part_001, line 269): process.exit(results.failed > 0 ? 1 : 0). -/
def mainRunAllExitCode (results : OrchestratorResults) : Nat :=
  if results.failed > 0 then 1 else 0

/-- The metadata object of a spec module (src/src/types.ts); every field is
optional in the loaded content. -/
structure SpecMetadata where
  dependencies : Option (List String) := none
  prerequisites : Option (List String) := none
  tags : Option (List String) := none
  timeout : Option Nat := none
deriving DecidableEq, Repr

/-- The raw object a spec file's dynamic import yields in loadSpec
(src/src/utils.ts, lines 59-60): any of the fields may be absent. -/
structure SpecModule where
  goal : Option String := none
  startUrl : Option String := none
  steps : Option (List String) := none
  successCriteria : Option (List String) := none
  metadata : Option SpecMetadata := none
deriving DecidableEq, Repr

/-- The normalized task descriptor loadSpec returns (TestSpec in
src/src/types.ts). -/
structure TestSpec where
  path : String
  goal : String
  startUrl : String
  steps : List String
  successCriteria : List String
  metadata : SpecMetadata
deriving DecidableEq, Repr

/-- JavaScript truthiness of an optional string property: undefined and the
empty string are falsy. -/
def strTruthy : Option String → Bool
  | none => false
  | some s => !(s == "")

/-- loadSpec (src/src/utils.ts, lines 48-77).  The dynamic import of the
spec file is external input, passed in as its outcome: either the imported
module object or the message of the import error.  The inner throw for a
missing goal/startUrl is caught by the same function's catch and rewrapped,
exactly like an import failure. -/
def loadSpec (specPath : String) (imported : Except String SpecModule) : Except String TestSpec :=
  match imported with
  | .error msg => .error ("Failed to load spec " ++ specPath ++ ": " ++ msg)
  | .ok spec =>
    if !(strTruthy spec.goal) || !(strTruthy spec.startUrl) then
      .error ("Failed to load spec " ++ specPath ++ ": " ++
        ("Invalid spec format: missing goal or startUrl in " ++ specPath))
    else
      .ok { path := specPath
          , goal := spec.goal.getD ""
          , startUrl := spec.startUrl.getD ""
          , steps := spec.steps.getD []
          , successCriteria := spec.successCriteria.getD []
          , metadata := spec.metadata.getD {} }

/-- JSON values, as JSON.parse yields them to parseAgentResult. -/
inductive Json
  | null
  | bool (b : Bool)
  | num (n : Int)
  | str (s : String)
  | arr (elems : List Json)
  | obj (fields : List (String × Json))

/-- Property lookup on the fields of a JSON object: the first field with
the given key. -/
def lookupField : List (String × Json) → String → Option Json
  | [], _ => none
  | (k, v) :: rest, key => if k = key then some v else lookupField rest key

/-- JavaScript property access on a parsed JSON value: an object yields its
field (or undefined), any other value yields undefined. -/
def Json.field : Json → String → Option Json
  | .obj fields, key => lookupField fields key
  | _, _ => none

/-- The strict comparison parsed.success === true of parseAgentResult
(src/unnamed/part_000, line 237). -/
def Json.isTrue : Option Json → Bool
  | some (.bool true) => true
  | _ => false

/-- The value parseAgentResult returns (src/unnamed/part_000, lines
226-246): success flag, the parsed error property or the fallback message,
and the parsed stepsCompleted property. -/
structure ParsedAgentResult where
  success : Bool
  error : Option Json
  stepsCompleted : Option Json

/-- The regex match output.match of parseAgentResult: the pattern
open-brace [sS]* close-brace matches, greedily, from the first open brace
of the output to the last close brace, and matches at all exactly when
some close brace occurs after some open brace. -/
def jsonMatch (cs : List Char) : Option (List Char) :=
  match cs.findIdx? (· == '{'), cs.reverse.findIdx? (· == '}') with
  | some i, some jr =>
    let j := cs.length - 1 - jr
    if i < j then some ((cs.drop i).take (j - i + 1)) else none
  | _, _ => none

/-- The fallback parseAgentResult returns when no JSON object substring is
found or JSON.parse throws (src/unnamed/part_000, line 245). -/
def parseFallback : ParsedAgentResult :=
  { success := false, error := some (Json.str "Could not parse agent response"), stepsCompleted := none }

/-- parseAgentResult (src/unnamed/part_000, lines 226-246), with
JSON.parse - an external built-in - passed in as the parser p: p returns
the parsed value, or none when JSON.parse would throw. -/
def parseAgentResult (p : List Char → Option Json) (output : List Char) : ParsedAgentResult :=
  match jsonMatch output with
  | some sub =>
    match p sub with
    | some parsed =>
      { success := Json.isTrue (parsed.field "success")
      , error := parsed.field "error"
      , stepsCompleted := parsed.field "stepsCompleted" }
    | none => parseFallback
  | none => parseFallback

/-- The status runWorker records from the parsed agent response
(src/unnamed/part_000, line 286): parsed.success ? passed : failed. -/
def runWorkerStatus (parsed : ParsedAgentResult) : Status :=
  if parsed.success then Status.passed else Status.failed

/-- A concrete executor behaviour for evaluating the scheduler: every
worker resolves with a passed result named after its spec. -/
def ocPassW : String → WorkerOutcome := fun sp =>
  WorkerOutcome.resolve { spec := basenameSpec sp, status := Status.passed, duration := 1 }

/-- A concrete executor behaviour: every worker rejects with an Error whose
message is boom. -/
def ocBoomW : String → WorkerOutcome := fun _ =>
  WorkerOutcome.reject (some "boom") "Error: boom"

/-- A concrete one-task run: one spec, one worker, settling at the first
await. -/
def runSingleW : Option SchedState :=
  runScheduler 2 1 ["a.spec.ts"] ["a.spec.ts"] ocPassW (fun _ => ["a.spec.ts"])

/-- The final state of the concrete one-task run. -/
def stateSingleW : SchedState := runSingleW.getD (initState [] [])

/-- The aggregate of the concrete one-task run. -/
def aggSingleW : OrchestratorResults :=
  (runTestsWithParallelization 2 1 ["a.spec.ts"] ["a.spec.ts"] ocPassW
    (fun _ => ["a.spec.ts"])).getD (finalize (initState [] []))

/-- The final state of a concrete one-task run whose worker rejects. -/
def stateRejectW : SchedState :=
  (runScheduler 2 1 ["b.spec.ts"] ["b.spec.ts"] ocBoomW (fun _ => ["b.spec.ts"])).getD
    (initState [] [])

/-- A concrete two-task run with distinct spec names, settled one per
await. -/
def stateTwoW : SchedState :=
  (runScheduler 3 2 ["a.spec.ts", "b.spec.ts"] ["a.spec.ts", "b.spec.ts"] ocPassW
    (fun k => if k == 0 then ["a.spec.ts"] else ["b.spec.ts"])).getD (initState [] [])

/-- The spec names of the results the tracker has recorded as completed,
in completion order. -/
def cnames (s : SchedState) : List String := s.progress.completed.map TestResult.spec

/-- The inductive invariant of one scheduling run over specs0 under
executor behaviour oc: the tracker mirrors the scheduler's three
collections, every spec name sits in exactly one of completed, running or
queued (as a permutation of the input names), every completed entry is the
normalized settlement of some input task, and the emitted snapshots
balance and are monotone. -/
structure SInv (specs0 : List String) (oc : String → WorkerOutcome) (s : SchedState) : Prop where
  queueEq : s.progress.queue = s.queue
  totalEq : s.progress.total = specs0.length
  runEq : s.progress.running = s.active.map basenameSpec
  permEq : List.Perm (cnames s ++ (s.active.map basenameSpec ++ s.queue.map basenameSpec))
    (specs0.map basenameSpec)
  activeSub : ∀ x ∈ s.active, x ∈ specs0
  queueSub : ∀ x ∈ s.queue, x ∈ specs0
  compOk : ∀ r ∈ s.progress.completed, ∃ sp, sp ∈ specs0 ∧ r = handlerResult sp (oc sp)
  snapSum : ∀ sn ∈ s.snapshots, sn.completed + sn.running + sn.queued = sn.total
    ∧ sn.total = specs0.length
  snapMono : List.Sorted (fun a b => a ≤ b) (s.snapshots.map Snapshot.completed)
  snapLe : ∀ x ∈ s.snapshots.map Snapshot.completed, x ≤ s.progress.completed.length

end E2E

namespace E2E

/-- Every TestResult status is passed or failed, so the passed and failed
counts of a result list partition its length. -/
theorem filter_status_partition (l : List TestResult) :
    (l.filter (fun r => r.status == Status.passed)).length
      + (l.filter (fun r => r.status == Status.failed)).length = l.length := by
  induction l with
  | nil => rfl
  | cons a t ih =>
    cases ha : a.status <;> simp [List.filter_cons, ha] <;> omega

/-- The CLI exit code is nonzero exactly when the failed count is
positive. -/
theorem mainExit_ne_zero_iff (a : OrchestratorResults) :
    mainRunAllExitCode a ≠ 0 ↔ 0 < a.failed := by
  unfold mainRunAllExitCode
  split <;> simp_all

/-- With a nonpositive worker limit, the admission loop admits nothing: the
guard activeWorkers.size below maxWorkers is false from the start. -/
theorem admitGo_nonpos (mw : Int) (hmw : mw ≤ 0) :
    ∀ (n : Nat) (s : SchedState), admitGo mw n s = s := by
  intro n
  induction n with
  | zero => intro s; rfl
  | succ n ih =>
    intro s
    unfold admitGo
    cases hq : s.queue with
    | nil => rfl
    | cons spec rest =>
      have hlt : ¬ ((s.active.length : Int) < mw) := by
        have h0 : (0 : Int) ≤ (s.active.length : Int) := Int.ofNat_nonneg _
        omega
      simp [hlt]

/-- With a nonpositive worker limit, an empty activeWorkers map and a
nonempty queue, the processing loop never reaches an await and never
returns: every iteration leaves the state unchanged. -/
theorem schedLoop_nonpos (oc : String → WorkerOutcome) (sched : Nat → List String)
    (mw : Int) (hmw : mw ≤ 0) :
    ∀ (fuel k : Nat) (s : SchedState), s.active = [] → s.queue ≠ [] →
      schedLoop oc sched mw fuel k s = none := by
  intro fuel
  induction fuel with
  | zero => intro k s _ _; rfl
  | succ fuel ih =>
    intro k s ha hq
    unfold schedLoop
    have h1 : s.queue.isEmpty = false := by
      cases hqq : s.queue with
      | nil => exact absurd hqq hq
      | cons a t => rfl
    rw [h1]
    simp only [Bool.false_and, Bool.false_eq_true, if_false]
    have h2 : admitLoop mw s = s := admitGo_nonpos mw hmw _ _
    rw [h2, ha]
    simpa [List.isEmpty] using ih k s ha hq

/-- Claim C2, counterexample: with maxWorkers = 0 and one task, the
scheduling run neither raises a configuration error nor terminates - for
no amount of fuel does it return. -/
theorem C2_counterexample_zero_workers_never_returns :
    ¬ ∃ fuel : Nat, (runTestsWithParallelization fuel 0 ["a.spec.ts"] ["a.spec.ts"]
        (fun _ => WorkerOutcome.reject none "err") (fun _ => [])).isSome = true := by
  rintro ⟨fuel, hf⟩
  have h := schedLoop_nonpos (fun _ => WorkerOutcome.reject none "err") (fun _ => [])
    0 le_rfl fuel 0 (initState ["a.spec.ts"] ["a.spec.ts"]) rfl (by simp [initState])
  rw [runTestsWithParallelization, runScheduler, h] at hf
  simp at hf

/-- Claim C2 (amended): a nonpositive maxWorkers does not fail fast with a
ConfigurationError; with a nonempty task list the scheduling run admits no
task and never returns, for any fuel. -/
theorem C2_amended_nonpositive_limit_diverges (fuel : Nat) (mw : Int)
    (specs allSpecs : List String) (oc : String → WorkerOutcome) (sched : Nat → List String)
    (hmw : mw ≤ 0) (hs : specs ≠ []) :
    runTestsWithParallelization fuel mw specs allSpecs oc sched = none
    ∧ admitLoop mw (initState specs allSpecs) = initState specs allSpecs := by
  constructor
  · have h := schedLoop_nonpos oc sched mw hmw fuel 0 (initState specs allSpecs) rfl hs
    rw [runTestsWithParallelization, runScheduler, h]
    rfl
  · exact admitGo_nonpos mw hmw _ _

/-- Claim C2 witness: the amended statement at maxWorkers = 0 with one
task. -/
theorem C2_amended_witness :
    runTestsWithParallelization 7 0 ["a.spec.ts"] ["a.spec.ts"] ocBoomW (fun _ => []) = none
    ∧ admitLoop 0 (initState ["a.spec.ts"] ["a.spec.ts"]) = initState ["a.spec.ts"] ["a.spec.ts"] :=
  C2_amended_nonpositive_limit_diverges 7 0 ["a.spec.ts"] ["a.spec.ts"] ocBoomW (fun _ => [])
    (by decide) (by decide)

/-- Claim C1: completeness fails on the code.  With two tasks, a limit of
two, and an executor that resolves both workers - both settling during the
same await - each chained handler deletes its own entry from activeWorkers
before Promise.race is consulted again, so only the race winner reaches
allResults: the returned aggregate has total 1 for an input of 2 tasks,
while the tracker completed both. -/
theorem C1_race_drops_completed_result :
    (runTestsWithParallelization 5 2 ["a.spec.ts", "b.spec.ts"] ["a.spec.ts", "b.spec.ts"]
        ocPassW (fun _ => ["a.spec.ts", "b.spec.ts"])).map OrchestratorResults.total = some 1
    ∧ (runScheduler 5 2 ["a.spec.ts", "b.spec.ts"] ["a.spec.ts", "b.spec.ts"]
        ocPassW (fun _ => ["a.spec.ts", "b.spec.ts"])).map
          (fun s => s.progress.completed.length) = some 2 := by
  constructor <;> rfl

/-- Claim C5: for every run that returns, the aggregate satisfies
passed + failed = total = length of results. -/
theorem C5_counts_conservation (fuel : Nat) (mw : Int) (specs allSpecs : List String)
    (oc : String → WorkerOutcome) (sched : Nat → List String) (agg : OrchestratorResults)
    (h : runTestsWithParallelization fuel mw specs allSpecs oc sched = some agg) :
    agg.passed + agg.failed = agg.total ∧ agg.total = agg.results.length := by
  obtain ⟨s, _, rfl⟩ := Option.map_eq_some'.mp h
  exact ⟨filter_status_partition s.allResults, rfl⟩

/-- Claim C5 witness: the conservation law at a concrete one-task run. -/
theorem C5_witness :
    aggSingleW.passed + aggSingleW.failed = aggSingleW.total
    ∧ aggSingleW.total = aggSingleW.results.length :=
  C5_counts_conservation 2 1 ["a.spec.ts"] ["a.spec.ts"] ocPassW (fun _ => ["a.spec.ts"])
    aggSingleW rfl

/-- Claim C6: for the empty task list the scheduling run returns at once
with the all-zero aggregate, executionTime 0, and without a single
runWorker invocation. -/
theorem C6_empty_run_immediate (fuel : Nat) (mw : Int) (allSpecs : List String)
    (oc : String → WorkerOutcome) (sched : Nat → List String) (hfuel : 1 ≤ fuel) :
    runTestsWithParallelization fuel mw [] allSpecs oc sched =
        some { total := 0, passed := 0, failed := 0, results := [], executionTime := 0 }
    ∧ (runScheduler fuel mw [] allSpecs oc sched).map SchedState.invocations = some [] := by
  obtain ⟨f, rfl⟩ : ∃ f, fuel = f + 1 := ⟨fuel - 1, by omega⟩
  exact ⟨rfl, rfl⟩

/-- Claim C6 witness: the empty run with one unit of fuel. -/
theorem C6_witness :
    runTestsWithParallelization 1 5 [] [] ocBoomW (fun _ => []) =
        some { total := 0, passed := 0, failed := 0, results := [], executionTime := 0 }
    ∧ (runScheduler 1 5 [] [] ocBoomW (fun _ => [])).map SchedState.invocations = some [] :=
  C6_empty_run_immediate 1 5 [] ocBoomW (fun _ => []) (by decide)

/-- Claim C7: after a completed orchestrator run the CLI exits nonzero
exactly when some outcome in the aggregate is failed, and exits 0 when all
outcomes passed. -/
theorem C7_exit_code_iff_failure (fuel : Nat) (mw : Int) (specs allSpecs : List String)
    (oc : String → WorkerOutcome) (sched : Nat → List String) (agg : OrchestratorResults)
    (h : runTestsWithParallelization fuel mw specs allSpecs oc sched = some agg) :
    (mainRunAllExitCode agg ≠ 0 ↔ ∃ r ∈ agg.results, r.status = Status.failed)
    ∧ ((∀ r ∈ agg.results, r.status = Status.passed) → mainRunAllExitCode agg = 0) := by
  obtain ⟨s, _, rfl⟩ := Option.map_eq_some'.mp h
  have hres : (finalize s).results = s.allResults := rfl
  have hfail : (finalize s).failed = (s.allResults.filter (fun r => r.status == Status.failed)).length := rfl
  constructor
  · rw [mainExit_ne_zero_iff, hres, hfail]
    simp [List.length_pos_iff_exists_mem, List.mem_filter]
  · intro hall
    have : (finalize s).failed = 0 := by
      rw [hfail]
      rw [List.filter_eq_nil_iff.mpr]
      · rfl
      · intro r hr
        have := hall r (by simpa [hres] using hr)
        simp [this]
    unfold mainRunAllExitCode
    simp [this]

/-- Claim C7 witness: the exit-code equivalence at a concrete one-task
run. -/
theorem C7_witness :
    (mainRunAllExitCode aggSingleW ≠ 0 ↔ ∃ r ∈ aggSingleW.results, r.status = Status.failed)
    ∧ ((∀ r ∈ aggSingleW.results, r.status = Status.passed) → mainRunAllExitCode aggSingleW = 0) :=
  C7_exit_code_iff_failure 2 1 ["a.spec.ts"] ["a.spec.ts"] ocPassW (fun _ => ["a.spec.ts"])
    aggSingleW rfl

/-- Claim C9: loadSpec fails exactly when the import fails or the loaded
content's goal or startUrl is absent or empty; every failure message
mentions the spec path, and on success the returned descriptor carries the
path, the goal and the startUrl. -/
theorem C9_loadSpec_validation (specPath : String) (imported : Except String SpecModule) :
    ((∃ e, loadSpec specPath imported = .error e) ↔
      ((∃ msg, imported = .error msg)
        ∨ (∃ spec, imported = .ok spec
            ∧ (strTruthy spec.goal = false ∨ strTruthy spec.startUrl = false))))
    ∧ (∀ e, loadSpec specPath imported = .error e → ∃ a b, e = a ++ (specPath ++ b))
    ∧ (∀ spec, imported = .ok spec → strTruthy spec.goal = true → strTruthy spec.startUrl = true →
        ∃ t, loadSpec specPath imported = .ok t ∧ t.path = specPath
          ∧ some t.goal = spec.goal ∧ some t.startUrl = spec.startUrl) := by
  refine ⟨?_, ?_, ?_⟩
  · cases imported with
    | error msg => simp [loadSpec]
    | ok spec =>
      by_cases hg : strTruthy spec.goal
      · by_cases hu : strTruthy spec.startUrl
        · simp [loadSpec, hg, hu]
        · simp [loadSpec, hg, hu]
      · simp [loadSpec, hg]
  · intro e he
    cases imported with
    | error msg =>
      refine ⟨"Failed to load spec ", ": " ++ msg, ?_⟩
      simp only [loadSpec, Except.error.injEq] at he
      rw [← he, String.append_assoc, String.append_assoc]
    | ok spec =>
      by_cases hg : strTruthy spec.goal
      · by_cases hu : strTruthy spec.startUrl
        · simp [loadSpec, hg, hu] at he
        · refine ⟨"Failed to load spec ", ": " ++ ("Invalid spec format: missing goal or startUrl in " ++ specPath), ?_⟩
          simp only [loadSpec, hg, hu, Bool.not_true, Bool.not_false, Bool.false_or,
            Bool.true_or, Bool.or_true, if_true, Except.error.injEq] at he
          rw [← he, String.append_assoc, String.append_assoc]
      · refine ⟨"Failed to load spec ", ": " ++ ("Invalid spec format: missing goal or startUrl in " ++ specPath), ?_⟩
        simp only [loadSpec, hg, Bool.not_false, Bool.true_or, if_true,
          Except.error.injEq] at he
        rw [← he, String.append_assoc, String.append_assoc]
  · rintro spec rfl hg hu
    refine ⟨{ path := specPath, goal := spec.goal.getD "", startUrl := spec.startUrl.getD ""
            , steps := spec.steps.getD [], successCriteria := spec.successCriteria.getD []
            , metadata := spec.metadata.getD {} }, by simp [loadSpec, hg, hu], rfl, ?_, ?_⟩
    · cases hgoal : spec.goal with
      | none => rw [hgoal] at hg; simp [strTruthy] at hg
      | some g => simp [hgoal]
    · cases hurl : spec.startUrl with
      | none => rw [hurl] at hu; simp [strTruthy] at hu
      | some u => simp [hurl]

/-- Claim C9 witness: a well-formed module loads into a descriptor with its
path, goal and startUrl, by the validation theorem. -/
theorem C9_witness :
    ∃ t, loadSpec "e2e/specs/a.spec.ts"
        (Except.ok { goal := some "book an event", startUrl := some "/events" }) = Except.ok t
      ∧ t.path = "e2e/specs/a.spec.ts"
      ∧ some t.goal = some "book an event" ∧ some t.startUrl = some "/events" :=
  (C9_loadSpec_validation "e2e/specs/a.spec.ts"
      (Except.ok { goal := some "book an event", startUrl := some "/events" })).2.2
    { goal := some "book an event", startUrl := some "/events" } rfl (by decide) (by decide)

/-- The strict success test is true exactly on a parsed success field that
is the boolean true. -/
theorem isTrue_iff (o : Option Json) : Json.isTrue o = true ↔ o = some (Json.bool true) := by
  cases o with
  | none => simp [Json.isTrue]
  | some j =>
    cases j with
    | bool b => cases b <;> simp [Json.isTrue]
    | null => simp [Json.isTrue]
    | num n => simp [Json.isTrue]
    | str s => simp [Json.isTrue]
    | arr xs => simp [Json.isTrue]
    | obj fs => simp [Json.isTrue]

/-- Claim C10: the worker's result parsing succeeds exactly when the
substring from the first open brace to the last close brace of the output
parses as JSON whose success field is strictly the boolean true, and when
no such parseable substring exists it returns the fallback - success false
with the could-not-parse error - so the worker's status is failed. -/
theorem C10_parseAgentResult_contract (p : List Char → Option Json) (output : List Char) :
    ((parseAgentResult p output).success = true ↔
      (∃ sub js, jsonMatch output = some sub ∧ p sub = some js
        ∧ js.field "success" = some (Json.bool true)))
    ∧ ((∀ sub, jsonMatch output = some sub → p sub = none) →
        parseAgentResult p output = parseFallback
        ∧ runWorkerStatus (parseAgentResult p output) = Status.failed) := by
  constructor
  · cases hm : jsonMatch output with
    | none => simp [parseAgentResult, hm, parseFallback]
    | some sub =>
      cases hp : p sub with
      | none => simp [parseAgentResult, hm, hp, parseFallback]
      | some js => simp [parseAgentResult, hm, hp, isTrue_iff]
  · intro hnone
    cases hm : jsonMatch output with
    | none =>
      refine ⟨by simp [parseAgentResult, hm], ?_⟩
      simp [runWorkerStatus, parseAgentResult, hm, parseFallback]
    | some sub =>
      have hp := hnone sub hm
      refine ⟨by simp [parseAgentResult, hm, hp], ?_⟩
      simp [runWorkerStatus, parseAgentResult, hm, hp, parseFallback]

/-- Claim C10 witness: an output with no brace pair yields the fallback and
a failed worker status, by the parsing contract. -/
theorem C10_witness :
    parseAgentResult (fun _ => none) ("hello".toList) = parseFallback
    ∧ runWorkerStatus (parseAgentResult (fun _ => none) ("hello".toList)) = Status.failed :=
  (C10_parseAgentResult_contract (fun _ => none) ("hello".toList)).2 (fun _ _ => rfl)

/-- Admitting one task grows activeWorkers by at most one key. -/
theorem activeSet_length_le (a : List String) (sp : String) :
    (activeSet a sp).length ≤ a.length + 1 := by
  unfold activeSet
  split <;> simp

/-- The admission loop keeps activeWorkers.size within the worker limit,
both at its end and at every size it records along the way. -/
theorem admitGo_capacity (mw : Int) :
    ∀ (n : Nat) (s : SchedState),
      (s.active.length : Int) ≤ mw → (∀ x ∈ s.activeSizes, (x : Int) ≤ mw) →
      ((admitGo mw n s).active.length : Int) ≤ mw
        ∧ ∀ x ∈ (admitGo mw n s).activeSizes, (x : Int) ≤ mw := by
  intro n
  induction n with
  | zero => intro s h1 h2; exact ⟨h1, h2⟩
  | succ n ih =>
    intro s h1 h2
    cases hq : s.queue with
    | nil => simp only [admitGo, hq]; exact ⟨h1, h2⟩
    | cons spec rest =>
      by_cases hlt : (s.active.length : Int) < mw
      · simp only [admitGo, hq, if_pos hlt]
        have hnewlen : (((admitOne s spec rest).active.length : Nat) : Int) ≤ mw := by
          have hle := activeSet_length_le s.active spec
          have : (admitOne s spec rest).active = activeSet s.active spec := rfl
          rw [this]
          omega
        apply ih
        · exact hnewlen
        · intro x hx
          have hsz : (admitOne s spec rest).activeSizes
              = s.activeSizes ++ [(activeSet s.active spec).length] := rfl
          rw [hsz, List.mem_append] at hx
          rcases hx with hx | hx
          · exact h2 x hx
          · simp only [List.mem_singleton] at hx
            subst hx
            exact hnewlen
      · simp only [admitGo, hq, if_neg hlt]
        exact ⟨h1, h2⟩

/-- Settling one worker shrinks activeWorkers, so the limit is kept. -/
theorem settleOne_capacity (oc : String → WorkerOutcome) (s : SchedState) (spec : String)
    (mw : Int) (h1 : (s.active.length : Int) ≤ mw) (h2 : ∀ x ∈ s.activeSizes, (x : Int) ≤ mw) :
    (((settleOne oc s spec).1.active.length : Int) ≤ mw)
    ∧ ∀ x ∈ (settleOne oc s spec).1.activeSizes, (x : Int) ≤ mw := by
  have hact : (settleOne oc s spec).1.active = s.active.erase spec := rfl
  have hsz : (settleOne oc s spec).1.activeSizes
      = s.activeSizes ++ [(s.active.erase spec).length] := rfl
  have hlen : (s.active.erase spec).length ≤ s.active.length :=
    (List.erase_sublist spec s.active).length_le
  constructor
  · rw [hact]; omega
  · intro x hx
    rw [hsz, List.mem_append] at hx
    rcases hx with hx | hx
    · exact h2 x hx
    · simp only [List.mem_singleton] at hx
      subst hx
      omega

/-- A settlement batch keeps activeWorkers within the limit. -/
theorem settleList_capacity (oc : String → WorkerOutcome) (mw : Int) :
    ∀ (l : List String) (s : SchedState),
      (s.active.length : Int) ≤ mw → (∀ x ∈ s.activeSizes, (x : Int) ≤ mw) →
      (((settleList oc s l).1.active.length : Int) ≤ mw)
      ∧ ∀ x ∈ (settleList oc s l).1.activeSizes, (x : Int) ≤ mw := by
  intro l
  induction l with
  | nil => intro s h1 h2; exact ⟨h1, h2⟩
  | cons spec rest ih =>
    intro s h1 h2
    unfold settleList
    by_cases hmem : spec ∈ s.active
    · rw [if_pos hmem]
      have hone := settleOne_capacity oc s spec mw h1 h2
      exact ih (settleOne oc s spec).1 hone.1 hone.2
    · rw [if_neg hmem]
      exact ih s h1 h2

/-- The processing loop keeps every recorded activeWorkers.size within the
limit. -/
theorem schedLoop_capacity (oc : String → WorkerOutcome) (sched : Nat → List String) (mw : Int) :
    ∀ (fuel k : Nat) (s s2 : SchedState),
      (s.active.length : Int) ≤ mw → (∀ x ∈ s.activeSizes, (x : Int) ≤ mw) →
      schedLoop oc sched mw fuel k s = some s2 →
      ∀ x ∈ s2.activeSizes, (x : Int) ≤ mw := by
  intro fuel
  induction fuel with
  | zero => intro k s s2 _ _ hrun; exact absurd hrun (by simp [schedLoop])
  | succ fuel ih =>
    intro k s s2 h1 h2 hrun
    rw [schedLoop] at hrun
    by_cases hdone : (s.queue.isEmpty && s.active.isEmpty) = true
    · rw [if_pos hdone] at hrun
      cases hrun
      exact h2
    · rw [if_neg hdone] at hrun
      have hadm := admitGo_capacity mw s.queue.length s h1 h2
      by_cases hempty : (admitLoop mw s).active.isEmpty = true
      · rw [if_pos hempty] at hrun
        exact ih k (admitLoop mw s) s2 hadm.1 hadm.2 hrun
      · rw [if_neg hempty] at hrun
        rcases hsl : settleList oc (admitLoop mw s) (sched k) with ⟨s3, rs⟩
        rw [hsl] at hrun
        have hset := settleList_capacity oc mw (sched k) (admitLoop mw s) hadm.1 hadm.2
        rw [hsl] at hset
        cases rs with
        | nil => exact absurd hrun (by simp)
        | cons w ws =>
          exact ih (k + 1) { s3 with allResults := s3.allResults ++ [w] } s2 hset.1 hset.2 hrun

/-- Claim C3: for a positive worker limit, activeWorkers.size never
exceeds config.maxWorkers at any reachable point of the run - every size
recorded after a Map.set or Map.delete on activeWorkers is at most the
limit. -/
theorem C3_capacity_invariant (fuel : Nat) (mw : Int) (specs allSpecs : List String)
    (oc : String → WorkerOutcome) (sched : Nat → List String) (s : SchedState)
    (hrun : runScheduler fuel mw specs allSpecs oc sched = some s) (hmw : 0 < mw) :
    ∀ x ∈ s.activeSizes, (x : Int) ≤ mw := by
  apply schedLoop_capacity oc sched mw fuel 0 (initState specs allSpecs) s _ _ hrun
  · simp [initState]
    omega
  · intro x hx
    simp [initState] at hx

/-- Claim C3 witness: the capacity bound at a concrete one-task run,
applied to the recorded size 1. -/
theorem C3_witness : ((1 : Nat) : Int) ≤ 1 :=
  C3_capacity_invariant 2 1 ["a.spec.ts"] ["a.spec.ts"] ocPassW (fun _ => ["a.spec.ts"])
    stateSingleW rfl (by decide) 1 (by decide)

/-- A sorted list stays sorted when a value above all its entries is
appended. -/
theorem sorted_append_singleton (l : List Nat) (a : Nat)
    (h : List.Sorted (fun x y => x ≤ y) l) (ha : ∀ x ∈ l, x ≤ a) :
    List.Sorted (fun x y => x ≤ y) (l ++ [a]) := by
  rw [List.Sorted, List.pairwise_append]
  refine ⟨h, List.pairwise_singleton _ _, fun x hx b hb => ?_⟩
  simp only [List.mem_singleton] at hb
  subst hb
  exact ha x hx

/-- Erasing an element commutes with mapping when the mapped list has no
duplicates. -/
theorem map_erase_nodup {α β : Type} [DecidableEq α] [DecidableEq β] (f : α → β) :
    ∀ (l : List α) (a : α), a ∈ l → (l.map f).Nodup →
      (l.erase a).map f = (l.map f).erase (f a) := by
  intro l
  induction l with
  | nil => intro a ha _; exact absurd ha (by simp)
  | cons b t ih =>
    intro a ha hnd
    rw [List.map_cons] at hnd
    have hnd1 := List.nodup_cons.mp hnd
    by_cases hba : b = a
    · subst hba
      rw [List.erase_cons_head, List.map_cons, List.erase_cons_head]
    · have hat : a ∈ t := by
        rcases List.mem_cons.mp ha with h | h
        · exact absurd h.symm hba
        · exact h
      have hfba : ¬ (f b = f a) := by
        intro heq
        have hfa : f a ∈ t.map f := List.mem_map_of_mem f hat
        rw [← heq] at hfa
        exact hnd1.1 hfa
      rw [List.erase_cons_tail (by simp [hba]), List.map_cons, List.map_cons,
        List.erase_cons_tail (by simp [hfba]), ih a hat hnd1.2]

/-- The run invariant forces the tracker's three counts to sum to the
number of input tasks. -/
theorem SInv.sumNow {specs0 : List String} {oc : String → WorkerOutcome} {s : SchedState}
    (inv : SInv specs0 oc s) :
    s.progress.completed.length + s.progress.running.length + s.progress.queue.length
      = specs0.length := by
  have hlen := inv.permEq.length_eq
  simp only [List.length_append, List.length_map] at hlen
  have h1 : s.progress.running.length = s.active.length := by
    rw [inv.runEq]; simp
  have h2 : s.progress.queue.length = s.queue.length := by rw [inv.queueEq]
  have h3 : (cnames s).length = s.progress.completed.length := by simp [cnames]
  omega

/-- With pairwise distinct input names, the names in completed, running
and queued are all distinct. -/
theorem SInv.nodupAll {specs0 : List String} {oc : String → WorkerOutcome} {s : SchedState}
    (inv : SInv specs0 oc s) (h1 : (specs0.map basenameSpec).Nodup) :
    (cnames s ++ (s.active.map basenameSpec ++ s.queue.map basenameSpec)).Nodup :=
  inv.permEq.nodup_iff.mpr h1

/-- The normalized settlement of a task carries the task's spec name,
given the executor contract for resolved outcomes. -/
theorem handlerResult_spec {oc : String → WorkerOutcome}
    (h2 : ∀ sp r, oc sp = WorkerOutcome.resolve r → r.spec = basenameSpec sp) (sp : String) :
    (handlerResult sp (oc sp)).spec = basenameSpec sp := by
  cases hoc : oc sp with
  | resolve r => simpa [handlerResult] using h2 sp r hoc
  | reject m sf => simp [handlerResult, errorResult]

/-- The state after admitting the queue head, written out field by field:
the new name is appended to running (it was not there) and the new path to
activeWorkers (it was not there). -/
theorem admitOne_eq {s : SchedState} {spec : String} {rest : List String}
    (hnotR : basenameSpec spec ∉ s.progress.running) (hnotActive : spec ∉ s.active) :
    admitOne s spec rest =
      { queue := rest
      , active := s.active ++ [spec]
      , allResults := s.allResults
      , progress := { running := s.progress.running ++ [basenameSpec spec]
                    , completed := s.progress.completed
                    , queue := rest
                    , total := s.progress.total }
      , snapshots := s.snapshots ++
          [ { completed := s.progress.completed.length
            , total := s.progress.total
            , passed := (s.progress.completed.filter (fun r => r.status == Status.passed)).length
            , failed := (s.progress.completed.filter (fun r => r.status == Status.failed)).length
            , running := s.progress.running.length + 1
            , queued := rest.length } ]
      , invocations := s.invocations ++ [spec]
      , activeSizes := s.activeSizes ++ [(s.active ++ [spec]).length] } := by
  simp [admitOne, ProgressState.addRunning, ProgressState.setQueue, ProgressState.snapshot,
    activeSet, hnotR, hnotActive]

/-- Admitting the queue head preserves the run invariant. -/
theorem admitOne_inv {specs0 : List String} {oc : String → WorkerOutcome} {s : SchedState}
    (inv : SInv specs0 oc s) (h1 : (specs0.map basenameSpec).Nodup)
    (spec : String) (rest : List String) (hq : s.queue = spec :: rest) :
    SInv specs0 oc (admitOne s spec rest) := by
  have hnd := inv.nodupAll h1
  rw [List.nodup_append] at hnd
  have hndAQ := hnd.2.1
  rw [List.nodup_append] at hndAQ
  have hbq : basenameSpec spec ∈ s.queue.map basenameSpec := by
    rw [hq]; exact List.mem_map_of_mem _ (by simp)
  have hnotA : basenameSpec spec ∉ s.active.map basenameSpec := fun hmem => hndAQ.2.2 hmem hbq
  have hnotR : basenameSpec spec ∉ s.progress.running := by rw [inv.runEq]; exact hnotA
  have hnotActive : spec ∉ s.active := fun hmem => hnotA (List.mem_map_of_mem _ hmem)
  have hspecs : spec ∈ specs0 := inv.queueSub spec (by rw [hq]; simp)
  have hsum := inv.sumNow
  have hqlen : s.progress.queue.length = rest.length + 1 := by
    rw [inv.queueEq, hq]; rfl
  rw [admitOne_eq hnotR hnotActive]
  refine { queueEq := rfl, totalEq := inv.totalEq, runEq := ?_, permEq := ?_, activeSub := ?_
         , queueSub := ?_, compOk := inv.compOk, snapSum := ?_, snapMono := ?_, snapLe := ?_ }
  · rw [inv.runEq]; simp
  · show List.Perm (cnames s ++ ((s.active ++ [spec]).map basenameSpec ++ rest.map basenameSpec))
        (specs0.map basenameSpec)
    have heq : (s.active ++ [spec]).map basenameSpec ++ rest.map basenameSpec
        = s.active.map basenameSpec ++ s.queue.map basenameSpec := by
      rw [hq]; simp
    rw [heq]
    exact inv.permEq
  · intro x hx
    rw [List.mem_append] at hx
    rcases hx with hx | hx
    · exact inv.activeSub x hx
    · simp only [List.mem_singleton] at hx
      subst hx
      exact hspecs
  · intro x hx
    exact inv.queueSub x (by rw [hq]; exact List.mem_cons_of_mem spec hx)
  · intro sn hsn
    rw [List.mem_append] at hsn
    rcases hsn with hsn | hsn
    · exact inv.snapSum sn hsn
    · simp only [List.mem_singleton] at hsn
      subst hsn
      exact ⟨by have htot := inv.totalEq; simp; omega, inv.totalEq⟩
  · rw [List.map_append]
    refine sorted_append_singleton _ _ inv.snapMono ?_
    intro x hx
    simpa using inv.snapLe x hx
  · intro x hx
    rw [List.map_append, List.mem_append] at hx
    rcases hx with hx | hx
    · exact inv.snapLe x hx
    · simp only [List.map_cons, List.map_nil, List.mem_singleton] at hx
      subst hx
      simp

/-- The admission loop preserves the run invariant. -/
theorem admitGo_inv {specs0 : List String} {oc : String → WorkerOutcome}
    (h1 : (specs0.map basenameSpec).Nodup) (mw : Int) :
    ∀ (n : Nat) (s : SchedState), SInv specs0 oc s → SInv specs0 oc (admitGo mw n s) := by
  intro n
  induction n with
  | zero => intro s inv; exact inv
  | succ n ih =>
    intro s inv
    cases hq : s.queue with
    | nil => simp only [admitGo, hq]; exact inv
    | cons spec rest =>
      by_cases hlt : (s.active.length : Int) < mw
      · simp only [admitGo, hq, if_pos hlt]
        exact ih _ (admitOne_inv inv h1 spec rest hq)
      · simp only [admitGo, hq, if_neg hlt]
        exact inv

/-- The state after one settlement, written out field by field: the
normalized result is appended to completed and its name - the task's spec
name - removed from running. -/
theorem settleOne_eq {oc : String → WorkerOutcome} {s : SchedState} {spec : String}
    (hrspec : (handlerResult spec (oc spec)).spec = basenameSpec spec) :
    (settleOne oc s spec).1 =
      { queue := s.queue
      , active := s.active.erase spec
      , allResults := s.allResults
      , progress := { running := s.progress.running.erase (basenameSpec spec)
                    , completed := s.progress.completed ++ [handlerResult spec (oc spec)]
                    , queue := s.queue
                    , total := s.progress.total }
      , snapshots := s.snapshots ++
          [ { completed := s.progress.completed.length + 1
            , total := s.progress.total
            , passed := ((s.progress.completed ++ [handlerResult spec (oc spec)]).filter
                (fun r => r.status == Status.passed)).length
            , failed := ((s.progress.completed ++ [handlerResult spec (oc spec)]).filter
                (fun r => r.status == Status.failed)).length
            , running := (s.progress.running.erase (basenameSpec spec)).length
            , queued := s.queue.length } ]
      , invocations := s.invocations
      , activeSizes := s.activeSizes ++ [(s.active.erase spec).length] } := by
  simp [settleOne, ProgressState.addCompleted, ProgressState.removeRunning,
    ProgressState.setQueue, ProgressState.snapshot, hrspec]

/-- Settling one in-flight worker preserves the run invariant. -/
theorem settleOne_inv {specs0 : List String} {oc : String → WorkerOutcome} {s : SchedState}
    (inv : SInv specs0 oc s) (h1 : (specs0.map basenameSpec).Nodup)
    (h2 : ∀ sp r, oc sp = WorkerOutcome.resolve r → r.spec = basenameSpec sp)
    (spec : String) (hmem : spec ∈ s.active) :
    SInv specs0 oc (settleOne oc s spec).1 := by
  have hrspec := handlerResult_spec h2 spec
  have hnd := inv.nodupAll h1
  rw [List.nodup_append] at hnd
  have hndAQ := hnd.2.1
  rw [List.nodup_append] at hndAQ
  have hndA : (s.active.map basenameSpec).Nodup := hndAQ.1
  have hbA : basenameSpec spec ∈ s.active.map basenameSpec := List.mem_map_of_mem _ hmem
  have hbR : basenameSpec spec ∈ s.progress.running := by rw [inv.runEq]; exact hbA
  have hmapErase : (s.active.erase spec).map basenameSpec
      = (s.active.map basenameSpec).erase (basenameSpec spec) :=
    map_erase_nodup basenameSpec s.active spec hmem hndA
  have hsum := inv.sumNow
  have hrlen : (s.progress.running.erase (basenameSpec spec)).length
      = s.progress.running.length - 1 := List.length_erase_of_mem hbR
  have hrpos : 0 < s.progress.running.length := List.length_pos_of_mem hbR
  have hqlen : s.progress.queue.length = s.queue.length := by rw [inv.queueEq]
  rw [settleOne_eq hrspec]
  refine { queueEq := rfl, totalEq := inv.totalEq, runEq := ?_, permEq := ?_, activeSub := ?_
         , queueSub := inv.queueSub, compOk := ?_, snapSum := ?_, snapMono := ?_, snapLe := ?_ }
  · rw [hmapErase, inv.runEq]
  · show List.Perm ((s.progress.completed ++ [handlerResult spec (oc spec)]).map TestResult.spec
        ++ ((s.active.erase spec).map basenameSpec ++ s.queue.map basenameSpec))
      (specs0.map basenameSpec)
    rw [List.map_append, hmapErase]
    have hstep : List.Perm
        ((s.progress.completed.map TestResult.spec
            ++ [handlerResult spec (oc spec)].map TestResult.spec)
          ++ ((s.active.map basenameSpec).erase (basenameSpec spec) ++ s.queue.map basenameSpec))
        (s.progress.completed.map TestResult.spec
          ++ (s.active.map basenameSpec ++ s.queue.map basenameSpec)) := by
      rw [List.map_cons, List.map_nil, hrspec, List.append_assoc]
      refine List.Perm.append_left _ ?_
      rw [List.singleton_append, ← List.cons_append]
      exact List.Perm.append_right _ (List.perm_cons_erase hbA).symm
    exact hstep.trans inv.permEq
  · intro x hx
    exact inv.activeSub x ((List.erase_sublist spec s.active).subset hx)
  · intro r hr
    rw [List.mem_append] at hr
    rcases hr with hr | hr
    · exact inv.compOk r hr
    · simp only [List.mem_singleton] at hr
      subst hr
      exact ⟨spec, inv.activeSub spec hmem, rfl⟩
  · intro sn hsn
    rw [List.mem_append] at hsn
    rcases hsn with hsn | hsn
    · exact inv.snapSum sn hsn
    · simp only [List.mem_singleton] at hsn
      subst hsn
      refine ⟨?_, inv.totalEq⟩
      show s.progress.completed.length + 1 + (s.progress.running.erase (basenameSpec spec)).length
          + s.queue.length = s.progress.total
      have htot := inv.totalEq
      omega
  · rw [List.map_append]
    refine sorted_append_singleton _ _ inv.snapMono ?_
    intro x hx
    have hle := inv.snapLe x hx
    simp only [List.length_append, List.length_singleton]
    omega
  · intro x hx
    rw [List.map_append, List.mem_append] at hx
    show x ≤ (s.progress.completed ++ [handlerResult spec (oc spec)]).length
    simp only [List.length_append, List.length_singleton]
    rcases hx with hx | hx
    · have := inv.snapLe x hx
      omega
    · simp only [List.map_cons, List.map_nil, List.mem_singleton] at hx
      subst hx
      omega

/-- A settlement batch preserves the run invariant. -/
theorem settleList_inv {specs0 : List String} {oc : String → WorkerOutcome}
    (h1 : (specs0.map basenameSpec).Nodup)
    (h2 : ∀ sp r, oc sp = WorkerOutcome.resolve r → r.spec = basenameSpec sp) :
    ∀ (l : List String) (s : SchedState), SInv specs0 oc s →
      SInv specs0 oc (settleList oc s l).1 := by
  intro l
  induction l with
  | nil => intro s inv; exact inv
  | cons spec rest ih =>
    intro s inv
    by_cases hmem : spec ∈ s.active
    · simp only [settleList, if_pos hmem]
      exact ih _ (settleOne_inv inv h1 h2 spec hmem)
    · simp only [settleList, if_neg hmem]
      exact ih s inv

/-- The run invariant ignores allResults. -/
theorem withResults_inv {specs0 : List String} {oc : String → WorkerOutcome} {s : SchedState}
    (inv : SInv specs0 oc s) (rs : List TestResult) :
    SInv specs0 oc { s with allResults := rs } :=
  { queueEq := inv.queueEq, totalEq := inv.totalEq, runEq := inv.runEq, permEq := inv.permEq
  , activeSub := inv.activeSub, queueSub := inv.queueSub, compOk := inv.compOk
  , snapSum := inv.snapSum, snapMono := inv.snapMono, snapLe := inv.snapLe }

/-- The run invariant holds at the initial state of a run over specs. -/
theorem init_inv (specs : List String) (oc : String → WorkerOutcome) :
    SInv specs oc (initState specs specs) := by
  refine { queueEq := rfl, totalEq := rfl, runEq := rfl
         , permEq := by simp [cnames, initState]
         , activeSub := by simp [initState]
         , queueSub := ?_
         , compOk := by simp [initState, cnames]
         , snapSum := by simp [initState]
         , snapMono := by simp [initState, List.Sorted]
         , snapLe := by simp [initState] }
  intro x hx
  exact hx

/-- The processing loop preserves the run invariant, and a returned state
has an empty queue and an empty activeWorkers map. -/
theorem schedLoop_inv {specs0 : List String} {oc : String → WorkerOutcome}
    (sched : Nat → List String) (mw : Int)
    (h1 : (specs0.map basenameSpec).Nodup)
    (h2 : ∀ sp r, oc sp = WorkerOutcome.resolve r → r.spec = basenameSpec sp) :
    ∀ (fuel k : Nat) (s s2 : SchedState), SInv specs0 oc s →
      schedLoop oc sched mw fuel k s = some s2 →
      SInv specs0 oc s2 ∧ s2.queue = [] ∧ s2.active = [] := by
  intro fuel
  induction fuel with
  | zero => intro k s s2 _ hrun; exact absurd hrun (by simp [schedLoop])
  | succ fuel ih =>
    intro k s s2 inv hrun
    rw [schedLoop] at hrun
    by_cases hdone : (s.queue.isEmpty && s.active.isEmpty) = true
    · rw [if_pos hdone] at hrun
      cases hrun
      simp only [Bool.and_eq_true, List.isEmpty_iff] at hdone
      exact ⟨inv, hdone.1, hdone.2⟩
    · rw [if_neg hdone] at hrun
      have hadm : SInv specs0 oc (admitLoop mw s) := admitGo_inv h1 mw s.queue.length s inv
      by_cases hempty : (admitLoop mw s).active.isEmpty = true
      · rw [if_pos hempty] at hrun
        exact ih k _ s2 hadm hrun
      · rw [if_neg hempty] at hrun
        rcases hsl : settleList oc (admitLoop mw s) (sched k) with ⟨s3, rs⟩
        rw [hsl] at hrun
        have hset : SInv specs0 oc s3 := by
          have hsi := settleList_inv h1 h2 (sched k) (admitLoop mw s) hadm
          rw [hsl] at hsi
          exact hsi
        cases rs with
        | nil => exact absurd hrun (by simp)
        | cons w ws =>
          exact ih (k + 1) { s3 with allResults := s3.allResults ++ [w] } s2
            (withResults_inv hset _) hrun

/-- Claim C8 (amended): when the input tasks' spec names are pairwise
distinct and resolved outcomes carry their task's spec name, every emitted
snapshot satisfies completed + running + queued = total with total the
number of tasks, and the completed count never decreases across the
emitted snapshots. -/
theorem C8_amended_snapshot_invariants (fuel : Nat) (mw : Int) (specs : List String)
    (oc : String → WorkerOutcome) (sched : Nat → List String) (s : SchedState)
    (hrun : runScheduler fuel mw specs specs oc sched = some s)
    (h1 : (specs.map basenameSpec).Nodup)
    (h2 : ∀ sp r, oc sp = WorkerOutcome.resolve r → r.spec = basenameSpec sp) :
    (∀ sn ∈ s.snapshots, sn.completed + sn.running + sn.queued = sn.total
      ∧ sn.total = specs.length)
    ∧ List.Sorted (fun a b => a ≤ b) (s.snapshots.map Snapshot.completed) := by
  obtain ⟨inv, -, -⟩ := schedLoop_inv sched mw h1 h2 fuel 0 (initState specs specs) s
    (init_inv specs oc) hrun
  exact ⟨inv.snapSum, inv.snapMono⟩

/-- Claim C8, counterexample: two distinct spec paths sharing the spec name
foo make an emitted snapshot break completed + running + queued = total,
because the tracker's running map is keyed by the name and collides. -/
theorem C8_counterexample_duplicate_spec_names :
    (runScheduler 3 2 ["a/foo.spec.ts", "b/foo.spec.ts"] ["a/foo.spec.ts", "b/foo.spec.ts"]
        ocPassW (fun k => if k == 0 then ["a/foo.spec.ts"] else ["b/foo.spec.ts"])).map
      (fun st => st.snapshots.all (fun sn => sn.completed + sn.running + sn.queued == sn.total))
      = some false := by
  rfl

/-- Claim C8 witness: the snapshot contract at a concrete one-task run,
applied to its first emitted snapshot. -/
theorem C8_witness :
    ((Snapshot.mk 0 1 0 0 1 0).completed + (Snapshot.mk 0 1 0 0 1 0).running
        + (Snapshot.mk 0 1 0 0 1 0).queued = (Snapshot.mk 0 1 0 0 1 0).total
      ∧ (Snapshot.mk 0 1 0 0 1 0).total = (["a.spec.ts"] : List String).length)
    ∧ List.Sorted (fun a b => a ≤ b) (stateSingleW.snapshots.map Snapshot.completed) :=
  ⟨(C8_amended_snapshot_invariants 2 1 ["a.spec.ts"] ocPassW (fun _ => ["a.spec.ts"])
      stateSingleW rfl (by decide)
      (fun sp r h => by
        simp only [ocPassW, WorkerOutcome.resolve.injEq] at h
        rw [← h])).1
    (Snapshot.mk 0 1 0 0 1 0) (by decide),
   (C8_amended_snapshot_invariants 2 1 ["a.spec.ts"] ocPassW (fun _ => ["a.spec.ts"])
      stateSingleW rfl (by decide)
      (fun sp r h => by
        simp only [ocPassW, WorkerOutcome.resolve.injEq] at h
        rw [← h])).2⟩

/-- Claim C4: a task whose worker rejects contributes exactly one completed
outcome - the synthesized failed result with duration 0 and the rejection
message (or its string form when the message is absent or empty) - and
every input task still ends completed: the completed names are a
permutation of the input names and the run returns with queue and
activeWorkers empty. -/
theorem C4_rejection_normalized_isolated (fuel : Nat) (mw : Int) (specs : List String)
    (oc : String → WorkerOutcome) (sched : Nat → List String) (s : SchedState)
    (hrun : runScheduler fuel mw specs specs oc sched = some s)
    (h1 : (specs.map basenameSpec).Nodup)
    (h2 : ∀ sp r, oc sp = WorkerOutcome.resolve r → r.spec = basenameSpec sp)
    (sp : String) (hsp : sp ∈ specs) (m : Option String) (sf : String)
    (hrej : oc sp = WorkerOutcome.reject m sf) :
    s.progress.completed.filter (fun r => r.spec == basenameSpec sp)
      = [errorResult (basenameSpec sp) m sf]
    ∧ List.Perm (cnames s) (specs.map basenameSpec)
    ∧ s.queue = [] ∧ s.active = [] := by
  obtain ⟨inv, hqe, hae⟩ := schedLoop_inv sched mw h1 h2 fuel 0 (initState specs specs) s
    (init_inv specs oc) hrun
  have hperm : List.Perm (cnames s) (specs.map basenameSpec) := by
    have hp := inv.permEq
    rw [hqe, hae] at hp
    simpa using hp
  refine ⟨?_, hperm, hqe, hae⟩
  have hinj := List.inj_on_of_nodup_map h1
  have hcount : (cnames s).count (basenameSpec sp) = 1 := by
    rw [hperm.count_eq]
    exact List.count_eq_one_of_mem h1 (List.mem_map_of_mem _ hsp)
  have hflen : (s.progress.completed.filter (fun r => r.spec == basenameSpec sp)).length = 1 := by
    rw [← List.countP_eq_length_filter]
    have hmapP : List.countP (fun r => r.spec == basenameSpec sp) s.progress.completed
        = List.countP (fun x => x == basenameSpec sp) (cnames s) := by
      rw [cnames, List.countP_map]
      rfl
    rw [hmapP]
    exact hcount
  obtain ⟨r0, hr0⟩ := List.length_eq_one.mp hflen
  rw [hr0]
  have hr0mem : r0 ∈ s.progress.completed.filter (fun r => r.spec == basenameSpec sp) := by
    rw [hr0]; simp
  rw [List.mem_filter] at hr0mem
  obtain ⟨hr0c, hr0spec⟩ := hr0mem
  obtain ⟨sp2, hsp2, hr0eq⟩ := inv.compOk r0 hr0c
  have hbn : basenameSpec sp2 = basenameSpec sp := by
    have hx : r0.spec = basenameSpec sp := by simpa using hr0spec
    rw [hr0eq, handlerResult_spec h2 sp2] at hx
    exact hx
  have hspeq : sp2 = sp := hinj hsp2 hsp hbn
  subst hspeq
  rw [hr0eq, hrej]
  rfl

/-- Claim C4 witness: the normalized rejection at a concrete one-task run
whose worker rejects with message boom. -/
theorem C4_witness :
    stateRejectW.progress.completed.filter (fun r => r.spec == basenameSpec "b.spec.ts")
      = [errorResult (basenameSpec "b.spec.ts") (some "boom") "Error: boom"]
    ∧ List.Perm (cnames stateRejectW) ((["b.spec.ts"] : List String).map basenameSpec)
    ∧ stateRejectW.queue = [] ∧ stateRejectW.active = [] :=
  C4_rejection_normalized_isolated 2 1 ["b.spec.ts"] ocBoomW (fun _ => ["b.spec.ts"])
    stateRejectW rfl (by decide)
    (fun sp r h => absurd h (by simp [ocBoomW]))
    "b.spec.ts" (by decide) (some "boom") "Error: boom" rfl

end E2E
